import Mathlib

/-!
Verification of the TSDB (time-series vector / matrix-profile database) described by
the repository's specification, against the repository's example-client code.

The repository ships only the example clients (src/examples/*.py); the server itself
(storage registry, similarity engine, matrix-profile engine) is specified in spec.md
but its code is absent, so those components are modelled here from the spec's words.
Client-side routines (`calculate_correlation`, `calculate_macro_score`, `send_command`,
the response-handling conditions, the ETH/BTC scaling) are translated directly from
the Python sources.

Numeric policy: IEEE-754 doubles are idealised as exact arithmetic. Stored vector
components are rationals (`ℚ`); quantities whose definition involves square roots
(z-normalised distances, Pearson denominators) live in `ℝ` with `Real.sqrt`.
For the cosine-similarity engine, which must be executable, scores are represented
by the strictly monotone image `s ↦ sign s * s ^ 2` of the cosine similarity, which
is rational for rational vectors and preserves order, sign, thresholds and the
interval `[-1, 1]`; this is documented at `cosSimRep`.
-/

/- ### Storage model (spec §4.1, Series Registry)

Modelled from the spec: the server's storage component is not in the repository;
`Series`, `createSeries`, `insert` and `query` follow spec §3 and §4.1
("append-only vector points preserving insertion order", create rejects an
existing name or non-positive dimension, insert rejects a missing series or a
dimension mismatch, query returns the ordered list of points). Finiteness checks
on floats are vacuous in the exact-rational idealisation. -/

namespace TSDB

/-- A named series: fixed dimension and an insertion-ordered list of points. -/
structure Series where
  dimension : Nat
  points : List (List ℚ)
deriving DecidableEq

/-- The series registry, a mapping from names to series. -/
def Registry : Type := String → Option Series

/-- The empty registry. -/
def emptyRegistry : Registry := fun _ => none

/-- Functional update of the registry at one name. -/
def setSeries (reg : Registry) (name : String) (s : Series) : Registry :=
  fun n => if n = name then some s else reg n

/-- Modelled from the spec: `create_series(name, dimension) → ok | AlreadyExists |
InvalidDimension(dimension≤0)` (spec §4.1). -/
def createSeries (reg : Registry) (name : String) (dim : Nat) : Option Registry :=
  if (reg name).isSome then none
  else if dim = 0 then none
  else some (setSeries reg name ⟨dim, []⟩)

/-- Modelled from the spec: `insert(name, values) → ok | NotFound |
DimensionMismatch` (spec §4.1); insert is append-only. -/
def insert (reg : Registry) (name : String) (v : List ℚ) : Option Registry :=
  (reg name).bind fun s =>
    if v.length = s.dimension then
      some (setSeries reg name ⟨s.dimension, s.points ++ [v]⟩)
    else none

/-- Modelled from the spec: `query(name) → ordered list of points | NotFound`
(spec §4.1). -/
def query (reg : Registry) (name : String) : Option (List (List ℚ)) :=
  (reg name).map Series.points

/-- A sequence of `Insert` commands, each applied to the state left by the
previous one (failure of any insert fails the whole sequence). -/
def insertAll (reg : Registry) (name : String) (vs : List (List ℚ)) : Option Registry :=
  vs.foldlM (fun r v => insert r name v) reg

theorem setSeries_same (reg : Registry) (name : String) (s : Series) :
    setSeries reg name s name = some s := by
  simp [setSeries]

theorem insert_ok {reg : Registry} {name : String} {s : Series} {v : List ℚ}
    (hs : reg name = some s) (hv : v.length = s.dimension) :
    insert reg name v = some (setSeries reg name ⟨s.dimension, s.points ++ [v]⟩) := by
  simp [TSDB.insert, hs, hv]

theorem insertAll_query {name : String} :
    ∀ (vs : List (List ℚ)) (reg : Registry) (s : Series), reg name = some s →
      (∀ v ∈ vs, v.length = s.dimension) →
      ∃ reg' : Registry, insertAll reg name vs = some reg' ∧
        reg' name = some ⟨s.dimension, s.points ++ vs⟩ := by
  intro vs
  induction vs with
  | nil =>
    intro reg s hs _
    exact ⟨reg, rfl, by simpa using hs⟩
  | cons v vs ih =>
    intro reg s hs hlen
    have hv : v.length = s.dimension := hlen v (List.mem_cons_self v vs)
    have hmid : insert reg name v =
        some (setSeries reg name ⟨s.dimension, s.points ++ [v]⟩) := insert_ok hs hv
    have hmid' : setSeries reg name ⟨s.dimension, s.points ++ [v]⟩ name =
        some ⟨s.dimension, s.points ++ [v]⟩ := setSeries_same ..
    obtain ⟨reg', h1, h2⟩ := ih (setSeries reg name ⟨s.dimension, s.points ++ [v]⟩)
      ⟨s.dimension, s.points ++ [v]⟩ hmid'
      (fun w hw => hlen w (List.mem_cons_of_mem v hw))
    refine ⟨reg', ?_, ?_⟩
    · simpa [insertAll, hmid] using h1
    · simpa [List.append_assoc] using h2

/-- C1: for every series and every sequence of successful `Insert(s, v_1) …
Insert(s, v_n)` calls on a freshly created series, a subsequent `Query(s)` returns
exactly the list `[v_1, …, v_n]` in insertion order, each vector equal to the one
inserted (the round trip `Insert*; Query` is the identity on the inserted
sequence). -/
theorem insert_query_roundtrip (reg : Registry) (name : String) (dim : Nat)
    (vs : List (List ℚ)) (reg₁ : Registry)
    (hcreate : createSeries reg name dim = some reg₁)
    (hlen : ∀ v ∈ vs, v.length = dim) :
    ∃ reg₂ : Registry, insertAll reg₁ name vs = some reg₂ ∧
      query reg₂ name = some vs := by
  have hnone : reg name = none := by
    cases h : reg name with
    | none => rfl
    | some s => simp [createSeries, h] at hcreate
  have hdim : ¬ dim = 0 := by
    intro h0
    simp [createSeries, hnone, h0] at hcreate
  have hreg₁ : reg₁ = setSeries reg name ⟨dim, []⟩ := by
    simp [createSeries, hnone, hdim] at hcreate
    exact hcreate.symm
  have hfresh : reg₁ name = some ⟨dim, []⟩ := by
    rw [hreg₁]; exact setSeries_same ..
  obtain ⟨reg₂, h1, h2⟩ := insertAll_query vs reg₁ ⟨dim, []⟩ hfresh hlen
  exact ⟨reg₂, h1, by simp [query, h2]⟩

/-- Witness for `insert_query_roundtrip`: two points inserted into a freshly
created 2-dimensional series come back verbatim from `Query`. -/
theorem insert_query_roundtrip_witness :
    ∃ reg₂ : Registry,
      insertAll (setSeries emptyRegistry "s" ⟨2, []⟩) "s" [[1, 2], [3, 4]] = some reg₂ ∧
      query reg₂ "s" = some [[1, 2], [3, 4]] :=
  insert_query_roundtrip emptyRegistry "s" 2 [[1, 2], [3, 4]]
    (setSeries emptyRegistry "s" ⟨2, []⟩) rfl (by decide)

end TSDB

/- ### Similarity engine (spec §4.2, §4.3)

Modelled from the spec: the server's similarity engine is not in the repository.
Spec §4.2 defines cosine similarity `(a·b) / (‖a‖·‖b‖)`, "defined as 0 when either
norm is 0"; §4.3 defines `FindSimilar`: compute cosine similarity between
`query_vector` and each stored point; retain those with similarity ≥ `threshold`;
return at most `limit` results sorted by similarity descending, ties broken by
earlier insertion index first.

Representation of scores: `‖a‖·‖b‖` is an irrational square root in general, so an
exact model stores, instead of the similarity `s`, its image under the strictly
monotone odd bijection `s ↦ sign s * s ^ 2` of `[-1, 1]` onto itself, which is
rational for rational vectors: `sign s * s ^ 2 = signedSq (a·b) / (‖a‖² ‖b‖²)`.
The map preserves order (hence the descending sort), sign, the bounds `[-1, 1]`,
and threshold comparisons once the threshold is mapped through the same function
(`signedSq t`). All statements about returned similarities are stated in this
representation. -/

namespace TSDB

/-- Dot product of two rational vectors (in the server both always have the
series dimension; `zipWith` truncation never fires). -/
def dotL (a b : List ℚ) : ℚ := (List.zipWith (· * ·) a b).sum
/-- Signed square `x ↦ sign x * x ^ 2`, the strictly monotone score
representation map described above. -/
def signedSq (x : ℚ) : ℚ := if 0 ≤ x then x * x else -(x * x)
/-- Representation of the cosine similarity of `a` and `b` (spec §4.2): the
value `sign s * s ^ 2` for `s = (a·b) / (‖a‖·‖b‖)`, and `0` when either norm is
`0`, exactly as the spec defines the zero-norm case. -/
def cosSimRep (a b : List ℚ) : ℚ :=
  if dotL a a = 0 ∨ dotL b b = 0 then 0
  else signedSq (dotL a b) / (dotL a a * dotL b b)
/-- One `FindSimilar` result: the matched point's values and its similarity
score in signed-square representation (response schema of spec §6). -/
structure SimResult where
  values : List ℚ
  similarity : ℚ
deriving DecidableEq
/-- Insertion into a descending-sorted result list; a new result goes after all
results with an equal or higher score, so results from earlier insertion indices
stay first on ties (spec §4.3). -/
def insertDescBy (x : SimResult) : List SimResult → List SimResult
  | [] => [x]
  | y :: ys => if y.similarity < x.similarity then x :: y :: ys else y :: insertDescBy x ys
/-- Stable sort by similarity descending, scoring the points in insertion order
(spec §4.3). -/
def sortDesc (l : List SimResult) : List SimResult :=
  l.foldl (fun acc x => insertDescBy x acc) []
/-- Modelled from the spec: `FindSimilar(series, query_vector, limit, threshold)`
(spec §4.3). Fails (`none`) on a dimension mismatch; otherwise scores every
stored point, retains those with similarity at least the threshold (both sides
in signed-square representation), sorts descending and returns at most `limit`
results. -/
def findSimilar (points : List (List ℚ)) (dim : Nat) (q : List ℚ) (limit : Nat)
    (t : ℚ) : Option (List SimResult) :=
  if q.length ≠ dim then none
  else
    let scored := points.map fun p => SimResult.mk p (cosSimRep p q)
    let kept := scored.filter fun r => decide (signedSq t ≤ r.similarity)
    some ((sortDesc kept).take limit)

theorem dotL_nil (b : List ℚ) : dotL [] b = 0 := rfl

theorem dotL_nil' (a : List ℚ) : dotL a [] = 0 := by cases a <;> rfl

theorem dotL_cons (x y : ℚ) (a b : List ℚ) :
    dotL (x :: a) (y :: b) = x * y + dotL a b := by
  simp [dotL]

theorem dotL_self_nonneg : ∀ a : List ℚ, 0 ≤ dotL a a := by
  intro a
  induction a with
  | nil => rw [dotL_nil]
  | cons x a ih => rw [dotL_cons]; nlinarith [ih]

theorem dotL_cross_nonneg (x y : ℚ) :
    ∀ (a b : List ℚ),
      0 ≤ x * x * dotL b b + y * y * dotL a a - 2 * x * y * dotL a b := by
  intro a
  induction a with
  | nil =>
    intro b
    simp only [dotL_nil, dotL_nil']
    nlinarith [dotL_self_nonneg b, mul_self_nonneg x]
  | cons p a ih =>
    intro b
    cases b with
    | nil =>
      simp only [dotL_nil, dotL_nil']
      nlinarith [dotL_self_nonneg (p :: a), mul_self_nonneg y]
    | cons q b =>
      rw [dotL_cons, dotL_cons, dotL_cons]
      nlinarith [ih b, mul_self_nonneg (x * q - y * p)]

/-- Cauchy-Schwarz for list dot products. -/
theorem dotL_sq_le : ∀ (a b : List ℚ), dotL a b * dotL a b ≤ dotL a a * dotL b b := by
  intro a
  induction a with
  | nil => intro b; simp [dotL_nil]
  | cons x a ih =>
    intro b
    cases b with
    | nil => simp [dotL_nil']
    | cons y b =>
      rw [dotL_cons, dotL_cons, dotL_cons]
      nlinarith [ih b, dotL_cross_nonneg x y a b, dotL_self_nonneg a, dotL_self_nonneg b]

/-- The represented similarity always lies in `[-1, 1]` (equivalently, the
cosine similarity itself does). -/
theorem cosSimRep_bounds (a b : List ℚ) : -1 ≤ cosSimRep a b ∧ cosSimRep a b ≤ 1 := by
  unfold cosSimRep
  split_ifs with h
  · norm_num
  · push_neg at h
    have ha : 0 < dotL a a := lt_of_le_of_ne (dotL_self_nonneg a) (Ne.symm h.1)
    have hb : 0 < dotL b b := lt_of_le_of_ne (dotL_self_nonneg b) (Ne.symm h.2)
    have hab : 0 < dotL a a * dotL b b := mul_pos ha hb
    have hcs := dotL_sq_le a b
    have hnn : (0:ℚ) ≤ dotL a b * dotL a b / (dotL a a * dotL b b) :=
      div_nonneg (mul_self_nonneg _) hab.le
    have hle : dotL a b * dotL a b / (dotL a a * dotL b b) ≤ 1 := (div_le_one hab).mpr hcs
    unfold signedSq
    split_ifs with hd
    · constructor <;> linarith
    · rw [neg_div]
      constructor <;> linarith

theorem mem_insertDescBy {r x : SimResult} :
    ∀ {l : List SimResult}, r ∈ insertDescBy x l ↔ r = x ∨ r ∈ l := by
  intro l
  induction l with
  | nil => simp [insertDescBy]
  | cons y ys ih =>
    by_cases h : y.similarity < x.similarity
    · simp [insertDescBy, h]
    · simp [insertDescBy, h, ih]
      tauto

theorem length_insertDescBy (x : SimResult) :
    ∀ (l : List SimResult), (insertDescBy x l).length = l.length + 1 := by
  intro l
  induction l with
  | nil => simp [insertDescBy]
  | cons y ys ih =>
    by_cases h : y.similarity < x.similarity
    · simp [insertDescBy, h]
    · simp [insertDescBy, h, ih]

theorem sorted_insertDescBy {x : SimResult} :
    ∀ {l : List SimResult},
      List.Pairwise (fun a b => b.similarity ≤ a.similarity) l →
      List.Pairwise (fun a b => b.similarity ≤ a.similarity) (insertDescBy x l) := by
  intro l
  induction l with
  | nil => intro _; simp [insertDescBy]
  | cons y ys ih =>
    intro hp
    rw [List.pairwise_cons] at hp
    by_cases h : y.similarity < x.similarity
    · rw [insertDescBy, if_pos h]
      refine List.Pairwise.cons ?_ (List.Pairwise.cons hp.1 hp.2)
      intro z hz
      rcases List.mem_cons.mp hz with hz | hz
      · rw [hz]; exact h.le
      · exact le_trans (hp.1 z hz) h.le
    · rw [insertDescBy, if_neg h]
      refine List.Pairwise.cons ?_ (ih hp.2)
      intro z hz
      rcases mem_insertDescBy.mp hz with hz | hz
      · rw [hz]; exact not_lt.mp h
      · exact hp.1 z hz

theorem sortDesc_aux_mem {r : SimResult} :
    ∀ (l acc : List SimResult),
      r ∈ l.foldl (fun acc x => insertDescBy x acc) acc ↔ r ∈ acc ∨ r ∈ l := by
  intro l
  induction l with
  | nil => simp
  | cons x xs ih =>
    intro acc
    rw [List.foldl_cons, ih, mem_insertDescBy]
    simp
    tauto

theorem sortDesc_aux_length :
    ∀ (l acc : List SimResult),
      (l.foldl (fun acc x => insertDescBy x acc) acc).length = acc.length + l.length := by
  intro l
  induction l with
  | nil => simp
  | cons x xs ih =>
    intro acc
    rw [List.foldl_cons, ih, length_insertDescBy, List.length_cons]
    omega

theorem sortDesc_aux_sorted :
    ∀ (l acc : List SimResult),
      List.Pairwise (fun a b => b.similarity ≤ a.similarity) acc →
      List.Pairwise (fun a b => b.similarity ≤ a.similarity)
        (l.foldl (fun acc x => insertDescBy x acc) acc) := by
  intro l
  induction l with
  | nil => intro acc h; simpa using h
  | cons x xs ih =>
    intro acc h
    exact ih _ (sorted_insertDescBy h)

theorem mem_sortDesc {r : SimResult} {l : List SimResult} :
    r ∈ sortDesc l ↔ r ∈ l := by
  rw [sortDesc, sortDesc_aux_mem]
  simp

theorem length_sortDesc (l : List SimResult) : (sortDesc l).length = l.length := by
  rw [sortDesc, sortDesc_aux_length]
  simp

theorem sorted_sortDesc (l : List SimResult) :
    List.Pairwise (fun a b => b.similarity ≤ a.similarity) (sortDesc l) :=
  sortDesc_aux_sorted l [] (by simp)

/-- C3: whenever `FindSimilar` succeeds, every returned similarity lies in
`[-1, 1]`, every returned similarity is at least the threshold, and the result
list is sorted in descending order of similarity (so the first element is the
best match). Similarities and the threshold are both read in the signed-square
representation, which preserves all three properties. -/
theorem findSimilar_bounds_sorted (points : List (List ℚ)) (dim : Nat) (q : List ℚ)
    (limit : Nat) (t : ℚ) (hq : q.length = dim) :
    ∃ l, findSimilar points dim q limit t = some l ∧
      (∀ r ∈ l, (-1 ≤ r.similarity ∧ r.similarity ≤ 1) ∧ signedSq t ≤ r.similarity) ∧
      List.Pairwise (fun a b => b.similarity ≤ a.similarity) l := by
  refine ⟨(sortDesc ((points.map fun p => SimResult.mk p (cosSimRep p q)).filter
      fun r => decide (signedSq t ≤ r.similarity))).take limit, ?_, ?_, ?_⟩
  · unfold findSimilar
    rw [if_neg (by simp [hq])]
  · intro r hr
    have hr' := (List.take_sublist _ _).mem hr
    have hr'' := mem_sortDesc.mp hr'
    rw [List.mem_filter] at hr''
    refine ⟨?_, of_decide_eq_true hr''.2⟩
    obtain ⟨p, _, hp⟩ := List.mem_map.mp hr''.1
    have := cosSimRep_bounds p q
    rw [← hp]
    exact this
  · exact (sorted_sortDesc _).sublist (List.take_sublist _ _)

/-- Witness for `findSimilar_bounds_sorted` at a concrete series, query and
positive threshold. -/
theorem findSimilar_bounds_sorted_witness :
    ∃ l, findSimilar [[1], [2], [-3]] 1 [1] 3 (1/2) = some l ∧
      (∀ r ∈ l, (-1 ≤ r.similarity ∧ r.similarity ≤ 1) ∧ signedSq (1/2) ≤ r.similarity) ∧
      List.Pairwise (fun a b => b.similarity ≤ a.similarity) l :=
  findSimilar_bounds_sorted [[1], [2], [-3]] 1 [1] 3 (1/2) rfl

/-- C2 counterexample: at threshold `0` the retain-step is not a no-op. In a
1-dimensional series holding `[1]` and `[-1]`, the query `[1]` with `limit = 2`
and `threshold = 0` returns only the point `[1]` (similarity `1`): the stored
point `[-1]` has cosine similarity `-1 < 0` and is removed by the
`similarity ≥ 0` filter, so fewer than `limit` stored points come back. -/
theorem findSimilar_threshold_zero_counterexample :
    findSimilar [[1], [-1]] 1 [1] 2 0 = some [⟨[1], 1⟩] := by
  norm_num [findSimilar, sortDesc, insertDescBy, cosSimRep, signedSq, dotL]

/-- C2 (amended): with `threshold = 0` the filter retains exactly the stored
points with nonnegative cosine similarity; in particular, when every stored
point has nonnegative similarity to the query, nothing is removed and
`FindSimilar` returns the top `min limit n` of the `n` stored points. -/
theorem findSimilar_threshold_zero_keeps_nonneg (points : List (List ℚ)) (dim : Nat)
    (q : List ℚ) (limit : Nat) (hq : q.length = dim)
    (hpos : ∀ p ∈ points, 0 ≤ cosSimRep p q) :
    ∃ l, findSimilar points dim q limit 0 = some l ∧
      l.length = min limit points.length := by
  refine ⟨(sortDesc ((points.map fun p => SimResult.mk p (cosSimRep p q)).filter
      fun r => decide (signedSq 0 ≤ r.similarity))).take limit, ?_, ?_⟩
  · unfold findSimilar
    rw [if_neg (by simp [hq])]
  · have hfil : ((points.map fun p => SimResult.mk p (cosSimRep p q)).filter
        fun r => decide (signedSq 0 ≤ r.similarity)) =
        (points.map fun p => SimResult.mk p (cosSimRep p q)) := by
      apply List.filter_eq_self.mpr
      intro r hr
      obtain ⟨p, hp, hpr⟩ := List.mem_map.mp hr
      apply decide_eq_true
      have h0 : signedSq 0 = 0 := by norm_num [signedSq]
      rw [h0, ← hpr]
      exact hpos p hp
    rw [hfil, List.length_take, length_sortDesc, List.length_map]

/-- Witness for `findSimilar_threshold_zero_keeps_nonneg`: both stored points
have nonnegative similarity to the query and with `limit = 5` both return. -/
theorem findSimilar_threshold_zero_keeps_nonneg_witness :
    ∃ l, findSimilar [[1], [2]] 1 [1] 5 0 = some l ∧ l.length = min 5 2 := by
  refine findSimilar_threshold_zero_keeps_nonneg [[1], [2]] 1 [1] 5 rfl ?_
  intro p hp
  rcases List.mem_cons.mp hp with h | h
  · subst h; norm_num [cosSimRep, signedSq, dotL]
  · simp at h; subst h; norm_num [cosSimRep, signedSq, dotL]

end TSDB

/- ### Matrix Profile engine (spec §4.4)

Modelled from the spec: the server's matrix-profile engine is not in the
repository. Spec §4.4: profile value `P[i]` is the minimum z-normalized
Euclidean distance between subsequence `S_i` and any other subsequence `S_j`
with `|i − j| ≥ ceil(w/2)` (the exclusion zone), `I[i]` the argmin; motifs are
the `k` smallest profile values and anomalies the `k` largest, each pick
excluding a radius-`w` neighborhood around both the picked index and its
matching index; results are `{score, window_size}` records, empty (with the
success status) when `n < w` or `w < 2`. Scores involve `Real.sqrt` and are
kept in `ℝ`; the claims proved here are structural (ordering, separation,
guards) and do not require evaluating a profile. -/

namespace TSDB


/-- Column `d` of the `w`-by-`D` subsequence matrix starting at position `i`
(spec §4.4, multivariate handling). -/
def column (pts : List (List ℚ)) (i w d : Nat) : List ℚ :=
  ((pts.drop i).take w).map fun p => p.getD d 0

/-- Z-normalization of a window (spec §4.2): subtract the mean, divide by the
population standard deviation; an all-zero window when the deviation is `0`. -/
noncomputable def znorm (c : List ℚ) : List ℝ :=
  let n : ℝ := c.length
  let μ : ℝ := ((c.map fun x => (x : ℝ)).sum) / n
  let σ : ℝ := Real.sqrt (((c.map fun x => ((x : ℝ) - μ) ^ 2).sum) / n)
  if σ = 0 then List.replicate c.length 0
  else c.map fun x => ((x : ℝ) - μ) / σ

/-- Squared Euclidean distance between two z-normalized columns. -/
noncomputable def colDistSq (c1 c2 : List ℝ) : ℝ :=
  (List.zipWith (fun a b => (a - b) ^ 2) c1 c2).sum

/-- Z-normalized distance between the subsequences at positions `i` and `j`:
`sqrt (Σ_d dist²(column_d(S_i), column_d(S_j)))` (spec §4.4). -/
noncomputable def subseqDist (pts : List (List ℚ)) (dim w i j : Nat) : ℝ :=
  Real.sqrt (((List.range dim).map fun d =>
    colDistSq (znorm (column pts i w d)) (znorm (column pts j w d))).sum)

/-- One matrix-profile entry: position, index of its nearest non-trivial
neighbor, and the profile value. -/
structure Cand where
  idx : Nat
  matchIdx : Nat
  score : ℝ

/-- Earliest argmin of a list of indexed distances. -/
noncomputable def minPair : List (Nat × ℝ) → Option (Nat × ℝ)
  | [] => none
  | c :: cs => some (cs.foldl (fun b q => if q.2 < b.2 then q else b) c)

/-- Modelled from the spec: the self-join matrix profile (spec §4.4). Entry `i`
holds the minimum z-normalized distance from subsequence `i` to any other
subsequence at index distance at least the exclusion zone `ceil(w/2)`, and the
minimizing index; a degenerate entry `(i, i, 0)` when no neighbor is admissible. -/
noncomputable def matrixProfile (pts : List (List ℚ)) (dim w : Nat) : List Cand :=
  let m := pts.length - w + 1
  (List.range m).map fun i =>
    match minPair (((List.range m).filter fun j =>
        decide ((w + 1) / 2 ≤ Nat.dist i j)).map fun j => (j, subseqDist pts dim w i j)) with
    | none => ⟨i, i, 0⟩
    | some jd => ⟨i, jd.1, jd.2⟩

/-- The pick of one selection round: the earliest candidate whose score is
strictly better (`lt`) than every earlier one — the minimum for motifs, the
maximum for anomalies. -/
noncomputable def bestCand (lt : ℝ → ℝ → Prop) [DecidableRel lt] :
    List Cand → Option Cand
  | [] => none
  | c :: cs => some (cs.foldl (fun b q => if lt q.score b.score then q else b) c)

/-- Modelled from the spec: the `k`-pick selection loop of §4.4. After each pick
a neighborhood of radius `w` around both the picked index and its matching index
is excluded from further picks, so returned subsequences never overlap. -/
noncomputable def selectBy (lt : ℝ → ℝ → Prop) [DecidableRel lt] (w : Nat) :
    List Cand → Nat → List Cand
  | _, 0 => []
  | cands, k + 1 =>
    match bestCand lt cands with
    | none => []
    | some c =>
      c :: selectBy lt w (cands.filter fun q =>
        decide (w < Nat.dist q.idx c.idx ∧ w < Nat.dist q.idx c.matchIdx)) k

/-- One `Motif` / `Anomaly` result (`score`, `window_size`, plus the optional
indices of spec §4.4). -/
structure MPResult where
  score : ℝ
  window_size : Nat
  index : Nat
  index_match : Nat

/-- Modelled from the spec: `Motif(series, window, k)` — the `k` non-overlapping
positions with the smallest profile values, empty when `w < 2` or `n < w`
(spec §4.4, edge cases). -/
noncomputable def motif (pts : List (List ℚ)) (dim w k : Nat) : List MPResult :=
  if w < 2 ∨ pts.length < w then []
  else (selectBy (· < ·) w (matrixProfile pts dim w) k).map fun c =>
    ⟨c.score, w, c.idx, c.matchIdx⟩

/-- Modelled from the spec: `Anomaly(series, window, k)` — the `k`
non-overlapping positions with the largest profile values, empty when `w < 2` or
`n < w` (spec §4.4, edge cases). -/
noncomputable def anomaly (pts : List (List ℚ)) (dim w k : Nat) : List MPResult :=
  if w < 2 ∨ pts.length < w then []
  else (selectBy (fun a b => b < a) w (matrixProfile pts dim w) k).map fun c =>
    ⟨c.score, w, c.idx, c.matchIdx⟩

/-- A dispatcher-level response for the matrix-profile commands (spec §6). -/
structure MPResponse where
  status : String
  data : List MPResult

/-- Response of the `Motif` command: success status `"Motifs"` and data list. -/
noncomputable def motifResponse (pts : List (List ℚ)) (dim w k : Nat) : MPResponse :=
  ⟨"Motifs", motif pts dim w k⟩

/-- Response of the `Anomaly` command: success status `"Anomalies"` and data. -/
noncomputable def anomalyResponse (pts : List (List ℚ)) (dim w k : Nat) : MPResponse :=
  ⟨"Anomalies", anomaly pts dim w k⟩

theorem foldl_choice_mem (lt : ℝ → ℝ → Prop) [DecidableRel lt] :
    ∀ (cs : List Cand) (b : Cand),
      cs.foldl (fun b q => if lt q.score b.score then q else b) b = b ∨
      cs.foldl (fun b q => if lt q.score b.score then q else b) b ∈ cs := by
  intro cs
  induction cs with
  | nil => intro b; left; rfl
  | cons q cs ih =>
    intro b
    rw [List.foldl_cons]
    rcases ih (if lt q.score b.score then q else b) with h | h
    · rw [h]
      split_ifs with hq
      · right; exact List.mem_cons_self q cs
      · left; rfl
    · right; exact List.mem_cons_of_mem q h

theorem bestCand_mem {lt : ℝ → ℝ → Prop} [DecidableRel lt] {l : List Cand} {c : Cand}
    (h : bestCand lt l = some c) : c ∈ l := by
  cases l with
  | nil => simp [bestCand] at h
  | cons x xs =>
    rw [bestCand, Option.some_inj] at h
    rcases foldl_choice_mem lt xs x with h' | h'
    · rw [← h, h']; exact List.mem_cons_self x xs
    · rw [← h]; exact List.mem_cons_of_mem x h'

theorem foldl_min_le :
    ∀ (cs : List Cand) (b : Cand),
      (cs.foldl (fun b q => if q.score < b.score then q else b) b).score ≤ b.score ∧
      ∀ q ∈ cs, (cs.foldl (fun b q => if q.score < b.score then q else b) b).score ≤ q.score := by
  intro cs
  induction cs with
  | nil => intro b; exact ⟨le_refl _, by simp⟩
  | cons q cs ih =>
    intro b
    rw [List.foldl_cons]
    obtain ⟨h1, h2⟩ := ih (if q.score < b.score then q else b)
    have hacc : (if q.score < b.score then q else b).score ≤ b.score ∧
        (if q.score < b.score then q else b).score ≤ q.score := by
      split_ifs with hq
      · exact ⟨hq.le, le_refl _⟩
      · exact ⟨le_refl _, not_lt.mp hq⟩
    refine ⟨le_trans h1 hacc.1, ?_⟩
    intro x hx
    rcases List.mem_cons.mp hx with hx | hx
    · rw [hx]; exact le_trans h1 hacc.2
    · exact h2 x hx

theorem foldl_max_le :
    ∀ (cs : List Cand) (b : Cand),
      b.score ≤ (cs.foldl (fun b q => if b.score < q.score then q else b) b).score ∧
      ∀ q ∈ cs, q.score ≤ (cs.foldl (fun b q => if b.score < q.score then q else b) b).score := by
  intro cs
  induction cs with
  | nil => intro b; exact ⟨le_refl _, by simp⟩
  | cons q cs ih =>
    intro b
    rw [List.foldl_cons]
    obtain ⟨h1, h2⟩ := ih (if b.score < q.score then q else b)
    have hacc : b.score ≤ (if b.score < q.score then q else b).score ∧
        q.score ≤ (if b.score < q.score then q else b).score := by
      split_ifs with hq
      · exact ⟨hq.le, le_refl _⟩
      · exact ⟨le_refl _, not_lt.mp hq⟩
    refine ⟨le_trans hacc.1 h1, ?_⟩
    intro x hx
    rcases List.mem_cons.mp hx with hx | hx
    · rw [hx]; exact le_trans hacc.2 h1
    · exact h2 x hx

theorem bestCand_min {l : List Cand} {c : Cand}
    (h : bestCand (· < ·) l = some c) : ∀ q ∈ l, c.score ≤ q.score := by
  cases l with
  | nil => simp [bestCand] at h
  | cons x xs =>
    rw [bestCand, Option.some_inj] at h
    obtain ⟨h1, h2⟩ := foldl_min_le xs x
    intro q hq
    rcases List.mem_cons.mp hq with hq | hq
    · rw [hq, ← h]; exact h1
    · rw [← h]; exact h2 q hq

theorem bestCand_max {l : List Cand} {c : Cand}
    (h : bestCand (fun a b => b < a) l = some c) : ∀ q ∈ l, q.score ≤ c.score := by
  cases l with
  | nil => simp [bestCand] at h
  | cons x xs =>
    rw [bestCand, Option.some_inj] at h
    obtain ⟨h1, h2⟩ := foldl_max_le xs x
    intro q hq
    rcases List.mem_cons.mp hq with hq | hq
    · rw [hq, ← h]; exact h1
    · rw [← h]; exact h2 q hq

theorem selectBy_mem (lt : ℝ → ℝ → Prop) [DecidableRel lt] (w : Nat) :
    ∀ (k : Nat) (cands : List Cand) (p : Cand), p ∈ selectBy lt w cands k → p ∈ cands := by
  intro k
  induction k with
  | zero => intro cands p hp; simp [selectBy] at hp
  | succ k ih =>
    intro cands p hp
    rw [selectBy] at hp
    cases hb : bestCand lt cands with
    | none => rw [hb] at hp; simp at hp
    | some c =>
      rw [hb] at hp
      rcases List.mem_cons.mp hp with hp | hp
      · rw [hp]; exact bestCand_mem hb
      · exact (List.mem_filter.mp (ih _ p hp)).1

theorem selectBy_sep (lt : ℝ → ℝ → Prop) [DecidableRel lt] (w : Nat) :
    ∀ (k : Nat) (cands : List Cand),
      List.Pairwise (fun a b => w < Nat.dist a.idx b.idx) (selectBy lt w cands k) := by
  intro k
  induction k with
  | zero => intro cands; simp [selectBy]
  | succ k ih =>
    intro cands
    rw [selectBy]
    cases hb : bestCand lt cands with
    | none => simp
    | some c =>
      refine List.Pairwise.cons ?_ (ih _)
      intro q hq
      have := List.mem_filter.mp (selectBy_mem lt w k _ q hq)
      have hd := (of_decide_eq_true this.2).1
      rw [Nat.dist_comm] at hd
      exact hd

theorem selectBy_sorted (lt : ℝ → ℝ → Prop) [DecidableRel lt] (w : Nat)
    (R : ℝ → ℝ → Prop)
    (hbest : ∀ (l : List Cand) (c : Cand), bestCand lt l = some c → ∀ q ∈ l, R c.score q.score) :
    ∀ (k : Nat) (cands : List Cand),
      List.Pairwise (fun a b => R a.score b.score) (selectBy lt w cands k) := by
  intro k
  induction k with
  | zero => intro cands; simp [selectBy]
  | succ k ih =>
    intro cands
    rw [selectBy]
    cases hb : bestCand lt cands with
    | none => simp
    | some c =>
      refine List.Pairwise.cons ?_ (ih _)
      intro q hq
      have hmem := (List.mem_filter.mp (selectBy_mem lt w k _ q hq)).1
      exact hbest cands c hb q hmem

/-- C4: for every series, window and count, the `Motif` list is sorted ascending
by score and the `Anomaly` list descending, and in either list the positions of
any two selected picks differ by at least `window` (the radius-`w` exclusion
around each pick and its matching index makes returned subsequences
non-overlapping). -/
theorem motif_anomaly_sorted_separated (pts : List (List ℚ)) (dim w k : Nat) :
    (List.Pairwise (fun a b => a.score ≤ b.score) (motif pts dim w k) ∧
      List.Pairwise (fun a b => w ≤ Nat.dist a.index b.index) (motif pts dim w k)) ∧
    (List.Pairwise (fun a b => b.score ≤ a.score) (anomaly pts dim w k) ∧
      List.Pairwise (fun a b => w ≤ Nat.dist a.index b.index) (anomaly pts dim w k)) := by
  unfold motif anomaly
  split_ifs with h
  · simp
  · refine ⟨⟨?_, ?_⟩, ?_, ?_⟩
    · exact ((selectBy_sorted (· < ·) w (· ≤ ·)
        (fun l c hb q hq => bestCand_min hb q hq) k _).map _ (fun a b hab => hab))
    · exact ((selectBy_sep (· < ·) w k _).map _ (fun a b hab => hab.le))
    · exact ((selectBy_sorted (fun a b => b < a) w (fun x y => y ≤ x)
        (fun l c hb q hq => bestCand_max hb q hq) k _).map _ (fun a b hab => hab))
    · exact ((selectBy_sep (fun a b => b < a) w k _).map _ (fun a b hab => hab.le))

/-- C5: whenever the series has fewer points than the requested window, or the
window is smaller than 2, both `Motif` and `Anomaly` return their success status
(`"Motifs"` / `"Anomalies"`) together with an empty data list, not an error. -/
theorem motif_anomaly_small_series_empty (pts : List (List ℚ)) (dim w k : Nat)
    (h : pts.length < w ∨ w < 2) :
    ((motifResponse pts dim w k).status = "Motifs" ∧
      (motifResponse pts dim w k).data = []) ∧
    ((anomalyResponse pts dim w k).status = "Anomalies" ∧
      (anomalyResponse pts dim w k).data = []) := by
  have hg : w < 2 ∨ pts.length < w := h.symm
  refine ⟨⟨rfl, ?_⟩, rfl, ?_⟩
  · show motif pts dim w k = []
    rw [motif, if_pos hg]
  · show anomaly pts dim w k = []
    rw [anomaly, if_pos hg]

/-- Witness for `motif_anomaly_small_series_empty`: a 1-point series with
window 5. -/
theorem motif_anomaly_small_series_empty_witness :
    (([[(1:ℚ)]].length < 5 ∨ 5 < 2) ∧
      ((motifResponse [[(1:ℚ)]] 1 5 1).status = "Motifs" ∧
        (motifResponse [[(1:ℚ)]] 1 5 1).data = []) ∧
      ((anomalyResponse [[(1:ℚ)]] 1 5 1).status = "Anomalies" ∧
        (anomalyResponse [[(1:ℚ)]] 1 5 1).data = [])) := by
  refine ⟨Or.inl (by norm_num), ?_⟩
  have := motif_anomaly_small_series_empty [[(1:ℚ)]] 1 5 1 (Or.inl (by norm_num))
  exact ⟨this.1, this.2⟩

end TSDB

/- ### Pearson correlation routine (src/examples/strategy_4_correlation.py)

The client-side correlation code is present in the repository; it is translated
here over `ℝ` (the `** 0.5` square roots are `Real.sqrt`). The inline variant in
src/examples/data_analyzer.py (lines 118-130) guards the same computation behind
`len(btc_changes) >= 5` and a positive-denominator check. -/

namespace Strategy4


/-- Translation of `calculate_correlation` (src/examples/strategy_4_correlation.py,
lines 43-59): `None` for fewer than 5 samples, else the two means over
`n = len(x_values)`, the cross deviation sum over `range(n)`, the two root
deviation sums (`** 0.5`), `0` when either root is zero, and otherwise
`numerator / (denom_x * denom_y)`. Out-of-range indexing into `y` (an
`IndexError` in Python when `y` is shorter) is modelled by `getD` and never
reached for the equal-length sequences the claim quantifies over. -/
noncomputable def calculate_correlation (x y : List ℝ) : Option ℝ :=
  if x.length < 5 then none
  else
    let n : ℝ := x.length
    let mean_x := x.sum / n
    let mean_y := y.sum / n
    let numerator := ((List.range x.length).map fun i =>
      (x.getD i 0 - mean_x) * (y.getD i 0 - mean_y)).sum
    let denom_x := Real.sqrt ((x.map fun v => (v - mean_x) ^ 2).sum)
    let denom_y := Real.sqrt ((y.map fun v => (v - mean_y) ^ 2).sum)
    if denom_x = 0 ∨ denom_y = 0 then some 0
    else some (numerator / (denom_x * denom_y))

/-- Modelled from the spec: "Pearson correlation over two scalar sequences of
length n≥2 with nonzero stddevs; otherwise 0" (spec §4.2), written with the
population standard deviations `sqrt(Σ(v − mean)² / n)` over `n = len(x)`.
This second definition follows the spec's words, to be compared with
`calculate_correlation`, which is translated from the source. -/
noncomputable def specPearson (x y : List ℝ) : ℝ :=
  let n : ℝ := x.length
  let mx := x.sum / n
  let my := y.sum / n
  let sx := Real.sqrt (((x.map fun v => (v - mx) ^ 2).sum) / n)
  let sy := Real.sqrt (((y.map fun v => (v - my) ^ 2).sum) / n)
  if sx = 0 ∨ sy = 0 then 0
  else
    (((List.range x.length).map fun i => (x.getD i 0 - mx) * (y.getD i 0 - my)).sum / n) /
      (sx * sy)

/-- A sum of squared deviations is nonnegative. -/
theorem sum_sq_nonneg (l : List ℝ) (m : ℝ) : 0 ≤ (l.map fun v => (v - m) ^ 2).sum := by
  apply List.sum_nonneg
  intro a ha
  obtain ⟨v, _, hv⟩ := List.mem_map.mp ha
  rw [← hv]
  exact sq_nonneg _

/-- On at least 5 samples the code's formula equals the spec's Pearson
coefficient (the zero-deviation guards coincide, and the population `1/n`
factors cancel between covariance and standard deviations). -/
theorem calculate_correlation_agrees_aux (x y : List ℝ) (h5 : 5 ≤ x.length) :
    calculate_correlation x y = some (specPearson x y) := by
  have hn5 : ¬ x.length < 5 := not_lt.mpr h5
  have hnpos : (0:ℝ) < x.length := by
    have : (5:ℝ) ≤ x.length := by exact_mod_cast h5
    linarith
  rw [calculate_correlation, if_neg hn5]
  set n : ℝ := (x.length : ℝ) with hn
  set mx := x.sum / n with hmx
  set my := y.sum / n with hmy
  set Sx := (x.map fun v => (v - mx) ^ 2).sum with hSx
  set Sy := (y.map fun v => (v - my) ^ 2).sum with hSy
  set num := ((List.range x.length).map fun i =>
    (x.getD i 0 - mx) * (y.getD i 0 - my)).sum with hnum
  have hSxnn : 0 ≤ Sx := sum_sq_nonneg x mx
  have hSynn : 0 ≤ Sy := sum_sq_nonneg y my
  have hxiff : Real.sqrt (Sx / n) = 0 ↔ Real.sqrt Sx = 0 := by
    rw [Real.sqrt_eq_zero', Real.sqrt_eq_zero']
    constructor
    · intro h
      rcases div_nonpos_iff.mp h with ⟨_, h2⟩ | ⟨h1, _⟩
      · linarith
      · exact h1
    · intro h
      exact div_nonpos_of_nonpos_of_nonneg h hnpos.le
  have hyiff : Real.sqrt (Sy / n) = 0 ↔ Real.sqrt Sy = 0 := by
    rw [Real.sqrt_eq_zero', Real.sqrt_eq_zero']
    constructor
    · intro h
      rcases div_nonpos_iff.mp h with ⟨_, h2⟩ | ⟨h1, _⟩
      · linarith
      · exact h1
    · intro h
      exact div_nonpos_of_nonpos_of_nonneg h hnpos.le
  show (if Real.sqrt Sx = 0 ∨ Real.sqrt Sy = 0 then some 0
    else some (num / (Real.sqrt Sx * Real.sqrt Sy))) = some (specPearson x y)
  rw [specPearson]
  simp only [← hn, ← hmx, ← hmy, ← hSx, ← hSy, ← hnum]
  by_cases hz : Real.sqrt Sx = 0 ∨ Real.sqrt Sy = 0
  · rw [if_pos hz, if_pos (by rw [hxiff, hyiff]; exact hz)]
  · rw [if_neg hz, if_neg (by rw [hxiff, hyiff]; exact hz)]
    push_neg at hz
    have hsx : Real.sqrt (Sx / n) = Real.sqrt Sx / Real.sqrt n := Real.sqrt_div hSxnn n
    have hsy : Real.sqrt (Sy / n) = Real.sqrt Sy / Real.sqrt n := Real.sqrt_div hSynn n
    rw [hsx, hsy]
    have hsqn : Real.sqrt n ≠ 0 := by
      rw [Real.sqrt_ne_zero']
      exact hnpos
    have hsqnn : Real.sqrt n * Real.sqrt n = n := Real.mul_self_sqrt hnpos.le
    have hnne : n ≠ 0 := ne_of_gt hnpos
    rw [Option.some_inj]
    field_simp

/-- C6 (amended): for equal-length sequences the routine returns the spec's
Pearson correlation coefficient (with `0` when a standard deviation is zero)
whenever `n ≥ 5`, and returns the absent value `None` whenever `n < 5` — so it
is numeric for all `n ≥ 5`, not for all `n ≥ 2` as claimed. -/
theorem calculate_correlation_spec (x y : List ℝ) (hxy : y.length = x.length) :
    (5 ≤ x.length → calculate_correlation x y = some (specPearson x y)) ∧
    (x.length < 5 → calculate_correlation x y = none) := by
  constructor
  · intro h5
    exact calculate_correlation_agrees_aux x y h5
  · intro h
    rw [calculate_correlation, if_pos h]

/-- Witness for `calculate_correlation_spec` on two concrete length-5
sequences. -/
theorem calculate_correlation_spec_witness :
    calculate_correlation [0, 1, 2, 3, 5] [0, 1, 2, 3, 5] =
      some (specPearson [0, 1, 2, 3, 5] [0, 1, 2, 3, 5]) :=
  (calculate_correlation_spec [0, 1, 2, 3, 5] [0, 1, 2, 3, 5] rfl).1 (by norm_num)

/-- C6 counterexample: on the equal-length pair `[0,1]`, `[0,1]` of length
`2 ≥ 2` (nonzero standard deviations, Pearson coefficient `1`), the routine
returns `None` — the `len < 5` guard fires — not a numeric result as the claim
states. -/
theorem calculate_correlation_length_two_counterexample :
    calculate_correlation [0, 1] [0, 1] = none := by
  rw [calculate_correlation, if_pos (by norm_num)]

end Strategy4

/- ### Macro score and storage scaling (src/examples/strategy_5_macro_complete.py)

The client-side macro scoring code is present in the repository and is translated
here field-by-field; the six `score += ...` blocks become six factor functions
summed by `calculate_macro_score`. -/

namespace Strategy5


/-- The merged data dictionary consumed by `calculate_macro_score`
(src/examples/strategy_5_macro_complete.py): each `data.get(key, default)` read
becomes a total field (every input dictionary determines such a record; the
source's key `eth_btc_ratio` is field `eth_btc` here). `eth_24h_change` is
fetched but unused by the score. -/
structure MacroData where
  btc_24h_change : ℚ
  eth_24h_change : ℚ
  eth_btc : ℚ
  btc_dominance : ℚ
  fear_greed_value : ℚ
  gold_24h_change : ℚ
  stablecoin_mcap : ℚ

/-- Factor 1, crypto momentum (lines 136-151): ±20 for strong moves, ±10 for
moderate ones. -/
def btcMomentumScore (d : MacroData) : ℤ :=
  if d.btc_24h_change > 3 then 20
  else if d.btc_24h_change > 1 then 10
  else if d.btc_24h_change < -3 then -20
  else if d.btc_24h_change < -1 then -10
  else 0

/-- Factor 2, ETH/BTC ratio (lines 153-160): +10 above 0.06, −10 below 0.04. -/
def ethBtcScore (d : MacroData) : ℤ :=
  if d.eth_btc > 0.06 then 10
  else if d.eth_btc < 0.04 then -10
  else 0

/-- Factor 3, BTC dominance (lines 162-169): −5 above 55, +10 below 45. -/
def btcDomScore (d : MacroData) : ℤ :=
  if d.btc_dominance > 55 then -5
  else if d.btc_dominance < 45 then 10
  else 0

/-- Factor 4, Fear and Greed index (lines 171-184): +15/+5 on fear,
−15/−5 on greed. -/
def fearGreedScore (d : MacroData) : ℤ :=
  if d.fear_greed_value < 25 then 15
  else if d.fear_greed_value < 40 then 5
  else if d.fear_greed_value > 75 then -15
  else if d.fear_greed_value > 60 then -5
  else 0

/-- Factor 5, gold correlation (lines 186-193): −15 on flight to safety,
+10 on risk-on rotation. -/
def goldBtcScore (d : MacroData) : ℤ :=
  if d.gold_24h_change > 1 ∧ d.btc_24h_change < -1 then -15
  else if d.gold_24h_change < -1 ∧ d.btc_24h_change > 1 then 10
  else 0

/-- Factor 6, stablecoin supply (lines 195-199): +5 above 150 billion. -/
def stablecoinScore (d : MacroData) : ℤ :=
  if d.stablecoin_mcap > 150 then 5
  else 0

/-- Translation of `calculate_macro_score` (src/examples/
strategy_5_macro_complete.py, lines 128-201): the score accumulated over the six
sequential factor blocks (the accompanying `factors` description list is
presentation only and is omitted). -/
def calculate_macro_score (d : MacroData) : ℤ :=
  btcMomentumScore d + ethBtcScore d + btcDomScore d + fearGreedScore d +
    goldBtcScore d + stablecoinScore d

theorem btcMomentumScore_mem (d : MacroData) :
    btcMomentumScore d ∈ ([-20, -10, 0, 10, 20] : List ℤ) := by
  unfold btcMomentumScore
  split_ifs <;> simp

theorem ethBtcScore_mem (d : MacroData) :
    ethBtcScore d ∈ ([-10, 0, 10] : List ℤ) := by
  unfold ethBtcScore
  split_ifs <;> simp

theorem btcDomScore_mem (d : MacroData) :
    btcDomScore d ∈ ([-5, 0, 10] : List ℤ) := by
  unfold btcDomScore
  split_ifs <;> simp

theorem fearGreedScore_mem (d : MacroData) :
    fearGreedScore d ∈ ([-15, -5, 0, 5, 15] : List ℤ) := by
  unfold fearGreedScore
  split_ifs <;> simp

theorem goldBtcScore_mem (d : MacroData) :
    goldBtcScore d ∈ ([-15, 0, 10] : List ℤ) := by
  unfold goldBtcScore
  split_ifs <;> simp

theorem stablecoinScore_mem (d : MacroData) :
    stablecoinScore d ∈ ([0, 5] : List ℤ) := by
  unfold stablecoinScore
  split_ifs <;> simp

theorem btcMomentumScore_bounds (d : MacroData) :
    -20 ≤ btcMomentumScore d ∧ btcMomentumScore d ≤ 20 := by
  unfold btcMomentumScore
  split_ifs <;> omega

theorem ethBtcScore_bounds (d : MacroData) :
    -10 ≤ ethBtcScore d ∧ ethBtcScore d ≤ 10 := by
  unfold ethBtcScore
  split_ifs <;> omega

theorem btcDomScore_bounds (d : MacroData) :
    -5 ≤ btcDomScore d ∧ btcDomScore d ≤ 10 := by
  unfold btcDomScore
  split_ifs <;> omega

theorem fearGreedScore_bounds (d : MacroData) :
    -15 ≤ fearGreedScore d ∧ fearGreedScore d ≤ 15 := by
  unfold fearGreedScore
  split_ifs <;> omega

theorem goldBtcScore_bounds (d : MacroData) :
    -15 ≤ goldBtcScore d ∧ goldBtcScore d ≤ 10 := by
  unfold goldBtcScore
  split_ifs <;> omega

theorem stablecoinScore_bounds (d : MacroData) :
    0 ≤ stablecoinScore d ∧ stablecoinScore d ≤ 5 := by
  unfold stablecoinScore
  split_ifs <;> omega

/-- C9: for every input data record the macro score lies in `[-65, 70]` (hence
strictly inside the documented −100..+100 range): the positive contributions sum
to at most 20+10+10+15+10+5 = 70 and the negative ones to at least
−(20+10+5+15+15) = −65, and each listed factor adjusts the score by exactly one
of its stated deltas. -/
theorem calculate_macro_score_bounds (d : MacroData) :
    (-65 ≤ calculate_macro_score d ∧ calculate_macro_score d ≤ 70) ∧
    btcMomentumScore d ∈ ([-20, -10, 0, 10, 20] : List ℤ) ∧
    ethBtcScore d ∈ ([-10, 0, 10] : List ℤ) ∧
    btcDomScore d ∈ ([-5, 0, 10] : List ℤ) ∧
    fearGreedScore d ∈ ([-15, -5, 0, 5, 15] : List ℤ) ∧
    goldBtcScore d ∈ ([-15, 0, 10] : List ℤ) ∧
    stablecoinScore d ∈ ([0, 5] : List ℤ) := by
  have h1 := btcMomentumScore_mem d
  have h2 := ethBtcScore_mem d
  have h3 := btcDomScore_mem d
  have h4 := fearGreedScore_mem d
  have h5 := goldBtcScore_mem d
  have h6 := stablecoinScore_mem d
  refine ⟨?_, h1, h2, h3, h4, h5, h6⟩
  have b1 := btcMomentumScore_bounds d
  have b2 := ethBtcScore_bounds d
  have b3 := btcDomScore_bounds d
  have b4 := fearGreedScore_bounds d
  have b5 := goldBtcScore_bounds d
  have b6 := stablecoinScore_bounds d
  unfold calculate_macro_score
  omega

/-- Translation of the storage scaling of component 3 (src/examples/
strategy_5_macro_complete.py, line 290): the ETH/BTC ratio is multiplied by 100
before it is inserted into the `macro_complete` series ("Scale for storage"). -/
def scaleEthBtcForStorage (r : ℚ) : ℚ := r * 100

end Strategy5


/- ### Data analyzer (src/examples/data_analyzer.py) -/

namespace Analyzer

/-- Translation of the read-back unscaling (src/examples/data_analyzer.py,
line 92): `p["values"][3] / 100` ("Unscale"). -/
def unscaleEthBtc (v : ℚ) : ℚ := v / 100

/-- C10: the ETH/BTC ratio stored in component 3 of the `macro_complete` series
is scaled by 100 on insert and divided by 100 when read back by the analyzer,
so the composed round trip `(r * 100) / 100` recovers every ratio `r` exactly
(in the exact-arithmetic idealisation of IEEE doubles used throughout). -/
theorem eth_btc_scale_roundtrip (r : ℚ) :
    unscaleEthBtc (Strategy5.scaleEthBtcForStorage r) = r := by
  unfold unscaleEthBtc Strategy5.scaleEthBtcForStorage
  field_simp

end Analyzer

/- ### Example clients: response handling and the wire protocol
(src/examples/strategy_1_anomaly.py, strategy_2_motif.py,
strategy_3_similarity.py, and the shared `send_command`)

A Python dict subscription `d["k"]` raises `KeyError` when the key is absent
while `d.get("k", default)` does not; the handlers are therefore translated into
`Except`, with `Except.error "KeyError"` marking the raised exception. Socket
I/O is modelled as the list of operations one `send_command` call performs. -/

namespace Clients


/-- A decoded server response as the clients see it: a `status` string and an
optional `data` list (`none` models an absent `"data"` key, `some []` an empty
one). -/
structure Resp (α : Type) where
  status : String
  data : Option (List α)

/-- Translation of the condition `result["status"] == "Anomalies" and
result["data"]` (src/examples/strategy_1_anomaly.py, line 103): `and`
short-circuits on a non-matching status, but on a matching status the direct
`result["data"]` subscription raises `KeyError` when the key is absent;
a present list is read for truthiness. -/
def strategy1Cond {α : Type} (r : Resp α) : Except String Bool :=
  if r.status = "Anomalies" then
    match r.data with
    | none => Except.error "KeyError"
    | some l => Except.ok (!l.isEmpty)
  else Except.ok false

/-- Translation of the condition `result["status"] == "Motifs" and
result["data"]` (src/examples/strategy_2_motif.py, line 138), identical in shape
to strategy 1's. -/
def strategy2Cond {α : Type} (r : Resp α) : Except String Bool :=
  if r.status = "Motifs" then
    match r.data with
    | none => Except.error "KeyError"
    | some l => Except.ok (!l.isEmpty)
  else Except.ok false

/-- Translation of strategy 3's read (src/examples/strategy_3_similarity.py,
lines 162-163): after `result["status"] == "Similar"`, `matches =
result.get("data", [])` — a defensive read that can never raise. -/
def strategy3Matches {α : Type} (r : Resp α) : Except String (List α) :=
  if r.status = "Similar" then Except.ok (r.data.getD []) else Except.ok []

/-- C7 (amended): not every client reads `data` defensively. Strategy 3 reads it
via `.get("data", [])` and never raises; strategies 1 and 2 subscript
`result["data"]` directly after their status check and raise `KeyError` whenever
the status matches but the key is absent; all three treat a present-but-empty
`data` as "nothing found" without raising. -/
theorem response_handling_defensiveness {α : Type} (r : Resp α) :
    (∃ l, strategy3Matches r = Except.ok l) ∧
    (r.status = "Anomalies" → r.data = none → strategy1Cond r = Except.error "KeyError") ∧
    (r.status = "Motifs" → r.data = none → strategy2Cond r = Except.error "KeyError") ∧
    (r.data = some [] →
      strategy1Cond r = Except.ok false ∧ strategy2Cond r = Except.ok false ∧
        strategy3Matches r = Except.ok []) := by
  refine ⟨?_, ?_, ?_, ?_⟩
  · unfold strategy3Matches
    split_ifs <;> exact ⟨_, rfl⟩
  · intro hs hd
    unfold strategy1Cond
    rw [if_pos hs, hd]
  · intro hs hd
    unfold strategy2Cond
    rw [if_pos hs, hd]
  · intro hd
    unfold strategy1Cond strategy2Cond strategy3Matches
    rw [hd]
    refine ⟨?_, ?_, ?_⟩ <;> split_ifs <;> rfl

/-- Witness for `response_handling_defensiveness` at a concrete response whose
status is `"Anomalies"` and whose `data` key is absent. -/
theorem response_handling_defensiveness_witness :
    (∃ l, strategy3Matches (Resp.mk "Anomalies" (none : Option (List ℚ))) = Except.ok l) ∧
    strategy1Cond (Resp.mk "Anomalies" (none : Option (List ℚ))) = Except.error "KeyError" :=
  ⟨(response_handling_defensiveness (Resp.mk "Anomalies" (none : Option (List ℚ)))).1,
    (response_handling_defensiveness (Resp.mk "Anomalies" (none : Option (List ℚ)))).2.1 rfl rfl⟩

/-- C7 counterexample: on a response with the expected success status
`"Anomalies"` but no `"data"` key, strategy 1's handling code (line 103) raises
`KeyError` instead of evaluating without exception as the claim states. -/
theorem strategy1_keyerror_counterexample :
    strategy1Cond (Resp.mk "Anomalies" (none : Option (List ℚ))) =
      Except.error "KeyError" := rfl

/-- One socket operation performed by a client's `send_command`. -/
inductive SockEvent where
  | connect (host : String) (port : Nat)
  | send (payload : String)
  | recv (bufsize : Nat)
  | close
deriving DecidableEq

def SockEvent.isSend : SockEvent → Bool
  | .send _ => true
  | _ => false

def SockEvent.isRecv : SockEvent → Bool
  | .recv _ => true
  | _ => false

def SockEvent.isConnect : SockEvent → Bool
  | .connect _ _ => true
  | _ => false

/-- Translation of `send_command` (identical in every example client, e.g.
src/examples/strategy_1_anomaly.py lines 19-23 and
src/examples/data_analyzer.py lines 22-26) as the trace of socket operations of
one call on the already-JSON-encoded command `cmd`: construct a fresh socket
(`with socket.socket(...)`), `connect` to 127.0.0.1:9999, `sendall` of
`json.dumps(command) + "\n"`, one `recv(65536)`, and the `with`-exit `close`
before the decoded response is returned. -/
def send_command (cmd : String) : List SockEvent :=
  [SockEvent.connect "127.0.0.1" 9999,
    SockEvent.send (cmd ++ "\n"),
    SockEvent.recv 65536,
    SockEvent.close]

/-- C8: every command goes over a fresh TCP connection (the trace starts with
its only `connect`), exactly one `sendall` transmits exactly
`json.dumps(command) + "\n"` — a single JSON object followed by a single
newline, since `json.dumps` output contains no newline — exactly one
`recv(65536)` reads the reply, and the socket is closed at the end of the
trace, before the decoded response is returned. -/
theorem send_command_protocol (cmd : String) (hnl : '\n' ∉ cmd.data) :
    ((send_command cmd).head? = some (SockEvent.connect "127.0.0.1" 9999) ∧
      (send_command cmd).filter SockEvent.isConnect =
        [SockEvent.connect "127.0.0.1" 9999]) ∧
    (send_command cmd).filter SockEvent.isSend = [SockEvent.send (cmd ++ "\n")] ∧
    (send_command cmd).filter SockEvent.isRecv = [SockEvent.recv 65536] ∧
    (send_command cmd).getLast? = some SockEvent.close ∧
    (cmd ++ "\n").data.count '\n' = 1 := by
  refine ⟨⟨rfl, rfl⟩, rfl, rfl, rfl, ?_⟩
  rw [String.data_append]
  rw [List.count_append]
  rw [List.count_eq_zero.mpr hnl]
  rfl

/-- Witness for `send_command_protocol` on a concrete newline-free command. -/
theorem send_command_protocol_witness :
    ('\n' ∉ "GetStats".data) ∧
    (send_command "GetStats").filter SockEvent.isSend =
      [SockEvent.send ("GetStats" ++ "\n")] ∧
    ("GetStats" ++ "\n").data.count '\n' = 1 := by
  have h : '\n' ∉ "GetStats".data := by decide
  have := send_command_protocol "GetStats" h
  exact ⟨h, this.2.1, this.2.2.2.2⟩

end Clients
